import Mathlib

/-!
Shallow embedding of the storage engine of the StanfordCS140 pintos file
system (buffer cache `filesys/cache.c`, free-space allocator
`filesys/free-map.c`, extensible indexed inode `filesys/inode.c`), together
with theorems settling the specification claims about it.

Machine integers are modelled as `Nat`, with explicit wrap-around `% 2^32`
at the places where the C code can underflow an `unsigned`.  Device sectors
are `Nat`.  Effects (calls into the block device, into the cache, into the
allocator) are modelled by explicit state passing plus effect traces.
-/

namespace Pintos

/-! ## Constants (from `devices/block.h`, `filesys/cache.c`, `filesys/inode.c`) -/

/-- Source `BLOCK_SECTOR_SIZE`: bytes per device sector. -/
def BLOCK_SECTOR_SIZE : Nat := 512

/-- Source `INODE_NUM_DBLOCKS`: direct block pointers in an inode. -/
def INODE_NUM_DBLOCKS : Nat := 12

/-- Source `INDBLOCK_NUM_CHILDREN = BLOCK_SECTOR_SIZE / sizeof (block_sector_t)`. -/
def INDBLOCK_NUM_CHILDREN : Nat := BLOCK_SECTOR_SIZE / 4

/-- Source `DOUBLY_INDBLOCK_NUM_GRANDCHILDREN`. -/
def DOUBLY_INDBLOCK_NUM_GRANDCHILDREN : Nat :=
  INDBLOCK_NUM_CHILDREN * INDBLOCK_NUM_CHILDREN

/-- Source `DBLOCK_END_BOUND`. -/
def DBLOCK_END_BOUND : Nat := INODE_NUM_DBLOCKS

/-- Source `INDBLOCK_END_BOUND = DBLOCK_END_BOUND + INDBLOCK_NUM_CHILDREN + 1`. -/
def INDBLOCK_END_BOUND : Nat := DBLOCK_END_BOUND + INDBLOCK_NUM_CHILDREN + 1

/-- Source `CACHE_NUM_SECTORS`: number of buffer-cache slots. -/
def CACHE_NUM_SECTORS : Nat := 64

/-- Source `(block_sector_t) -1`, the invalid-sector marker returned by
`byte_to_sector` (`block_sector_t` is a 32-bit unsigned integer). -/
def INVALID_SECTOR : Nat := 2 ^ 32 - 1

/-- Source `UINT_MAX + 1`, for explicit 32-bit unsigned wrap-around. -/
def U32 : Nat := 2 ^ 32

/-! ## Free-space allocator (`filesys/free-map.c`)

The bitmap is a `List Bool`, one bit per sector, `true` = allocated.  The
`bitmap_*` primitives live in the pintos library (`lib/kernel/bitmap.c`),
which is not part of this repository's sources.  Modelled from the spec:
"Free-Space Bitmap: one bit per device sector; bit set ⇒ sector is
allocated", with the standard test/mark/reset/set-range semantics the
free-map code relies on. -/

/-- Modelled from the spec: `bitmap_test (b, i)` — value of bit `i`. -/
def bitmap_test (bm : List Bool) (i : Nat) : Bool := bm.getD i false

/-- Modelled from the spec: `bitmap_mark (b, i)` — set bit `i` to true. -/
def bitmap_mark (bm : List Bool) (i : Nat) : List Bool := bm.set i true

/-- Modelled from the spec: `bitmap_reset (b, i)` — set bit `i` to false. -/
def bitmap_reset (bm : List Bool) (i : Nat) : List Bool := bm.set i false

/-- Modelled from the spec: `bitmap_all (b, start, cnt)` — true iff every
bit in `start .. start + cnt - 1` is set. -/
def bitmap_all (bm : List Bool) (start cnt : Nat) : Bool :=
  (List.range cnt).all fun k => bitmap_test bm (start + k)

/-- Modelled from the spec: `bitmap_set_multiple (b, start, cnt, v)` —
set every bit in `start .. start + cnt - 1` to `v`. -/
def bitmap_set_multiple (bm : List Bool) (start cnt : Nat) (v : Bool) : List Bool :=
  (List.range cnt).foldl (fun b k => b.set (start + k) v) bm

/-- State of the free-map module: the in-memory bitmap (`free_map`),
whether `free_map_file` is non-null, and an oracle telling whether a
`bitmap_write` persistence attempt succeeds. -/
structure FreeMapEnv where
  bits : List Bool
  fileOpen : Bool
  persistOk : Bool
  deriving Repr, DecidableEq

/-- The scan loop of `free_map_allocate`, iterating over bit indices.
For each index `i`: if the bit is clear, record it in `sectorp`
(`acc`) and mark it; then, if `allocated == cnt`, attempt persistence —
`some true` models `return true` (`!free_map_file || bitmap_write (...)`
succeeded), `some false` models the `break` on a failed `bitmap_write`,
and `none` means the loop ran out of bits. -/
def fmaLoop (cnt : Nat) (fileOpen persistOk : Bool) :
    List Nat → List Bool → List Nat → Option Bool × List Bool × List Nat
  | [], bm, acc => (none, bm, acc)
  | i :: rest, bm, acc =>
    let step := if bitmap_test bm i = false then (bitmap_mark bm i, acc ++ [i]) else (bm, acc)
    if step.2.length = cnt then (some (!fileOpen || persistOk), step.1, step.2)
    else fmaLoop cnt fileOpen persistOk rest step.1 step.2

/-- The failure path of `free_map_allocate`:
`for (i = 0; i < allocated; ++i) bitmap_reset (free_map, i);`
Note it resets bit *indices* `0 .. allocated-1`, not the sectors stored
in `sectorp`. -/
def fmaRollback (bm : List Bool) (allocated : Nat) : List Bool :=
  (List.range allocated).foldl bitmap_reset bm

/-- Source `free_map_allocate (cnt, sectorp)`: returns (success flag, new module
state, contents of `sectorp`). -/
def free_map_allocate (fm : FreeMapEnv) (cnt : Nat) : Bool × FreeMapEnv × List Nat :=
  if cnt = 0 then (true, fm, [])
  else
    match fmaLoop cnt fm.fileOpen fm.persistOk (List.range fm.bits.length) fm.bits [] with
    | (some true, bm, acc) => (true, { fm with bits := bm }, acc)
    | (some false, bm, acc) => (false, { fm with bits := fmaRollback bm acc.length }, acc)
    | (none, bm, acc) => (false, { fm with bits := fmaRollback bm acc.length }, acc)

/-- Source `free_map_release (sector, cnt)`: `none` models the fatal
`ASSERT (bitmap_all (free_map, sector, cnt))` firing; otherwise the bits
are cleared and the bitmap is written to the backing file (`fileBits` is
the backing file's image; the C code ignores `bitmap_write`'s result). -/
def free_map_release (bits fileBits : List Bool) (persistOk : Bool)
    (sector cnt : Nat) : Option (List Bool × List Bool) :=
  if bitmap_all bits sector cnt then
    let bits' := bitmap_set_multiple bits sector cnt false
    some (bits', if persistOk then bits' else fileBits)
  else none

/-! ## Indexed inode: data model and sector counting (`filesys/inode.c`) -/

/-- Source `INODE_MAGIC`. -/
def INODE_MAGIC : Nat := 0x494e4f44

/-- On-disk inode record (`struct inode_disk`).  `length` is `off_t`
(non-negative in every reachable state), `dblocks` has 12 entries, the
padding `unused` bytes are irrelevant and omitted. -/
structure InodeDisk where
  length : Nat
  is_dir : Bool
  dblocks : List Nat
  indblock : Nat
  doubly_indblock : Nat
  magic : Nat
  deriving Repr, DecidableEq

/-- In-memory inode handle (`struct inode`), minus the intrusive list
link (list membership is modelled by the open-inode list itself). -/
structure Inode where
  sector : Nat
  open_cnt : Int
  removed : Bool
  deny_write_cnt : Int
  deriving Repr, DecidableEq

/-- A read oracle for the buffer cache's contents at the start of an
operation: `fetch s i` is the `i`-th 4-byte sector-pointer word of
sector `s` when that sector is interpreted as an indirect block
(`cache_read (s, buf)` followed by `buf[i]`). -/
def IndexFetch : Type := Nat → Nat → Nat

/-- Source `bytes_to_data_sectors (size) = DIV_ROUND_UP (size, BLOCK_SECTOR_SIZE)`. -/
def bytes_to_data_sectors (size : Nat) : Nat :=
  (size + BLOCK_SECTOR_SIZE - 1) / BLOCK_SECTOR_SIZE

/-- Source `bytes_to_indirect_sectors (size)`: number of index (non-data)
sectors an inode `size` bytes long needs. -/
def bytes_to_indirect_sectors (size : Nat) : Nat :=
  let data_sectors_left := bytes_to_data_sectors size
  if data_sectors_left ≤ INODE_NUM_DBLOCKS then 0
  else
    let left1 := data_sectors_left - INODE_NUM_DBLOCKS
    if left1 ≤ INDBLOCK_NUM_CHILDREN then 1
    else
      let left2 := left1 - INDBLOCK_NUM_CHILDREN
      2 + (left2 + INDBLOCK_NUM_CHILDREN - 1) / INDBLOCK_NUM_CHILDREN

/-- Source `bytes_to_sectors (size)`: total sectors (data + index). -/
def bytes_to_sectors (size : Nat) : Nat :=
  bytes_to_data_sectors size + bytes_to_indirect_sectors size

/-- Source `byte_to_sector (inode_disk, pos)`: translate byte offset `pos` to the
device sector holding it.  Indirect blocks are read through the cache,
modelled by the read oracle `fetch`.  `(block_sector_t) -1` is
`INVALID_SECTOR`. -/
def byte_to_sector (d : InodeDisk) (fetch : IndexFetch) (pos : Nat) : Nat :=
  let sector_num := pos / BLOCK_SECTOR_SIZE
  if sector_num < INODE_NUM_DBLOCKS then d.dblocks.getD sector_num 0
  else
    let sn1 := sector_num - INODE_NUM_DBLOCKS
    if sn1 < INDBLOCK_NUM_CHILDREN then fetch d.indblock sn1
    else
      let sn2 := sn1 - INDBLOCK_NUM_CHILDREN
      if sn2 < DOUBLY_INDBLOCK_NUM_GRANDCHILDREN then
        fetch (fetch d.doubly_indblock (sn2 / INDBLOCK_NUM_CHILDREN))
          (sn2 % INDBLOCK_NUM_CHILDREN)
      else INVALID_SECTOR

/-! ## Extension (`inode_disk_extend` and its helpers)

Cache effects are recorded as an explicit trace; `sectors` (the array
returned by `free_map_allocate`) is a list, and the C cursor pointers
`*sectors` / `*indirect_sectors` become indices `sIdx` / `iIdx` into it. -/

/-- One call into the buffer cache, as issued by the inode layer. -/
inductive CacheOp where
  /-- Source `cache_read (sector, buf)` — full-sector read. -/
  | read (sector : Nat)
  /-- Source `cache_write (sector, zeros)` — zero-fill a data sector. -/
  | writeZeros (sector : Nat)
  /-- Source `cache_write (sector, inode_disk)` — write back an inode record. -/
  | writeInode (sector : Nat) (d : InodeDisk)
  /-- Source `cache_write_partial (sector, buf, ofs, size)` writing the given
  pointer words at byte offset `byteOfs`, `byteLen` bytes. -/
  | writeWords (sector : Nat) (byteOfs byteLen : Nat) (words : List Nat)
  deriving Repr, DecidableEq

/-- Store `vals` into consecutive positions of `l` starting at `ofs`. -/
def writeSeq (l : List Nat) (ofs : Nat) : List Nat → List Nat
  | [] => l
  | v :: vs => writeSeq (l.set ofs v) (ofs + 1) vs

/-- Source `inode_disk_extend_dblock`: link up to `total` freshly allocated
sectors into the direct-pointer array, zero-filling each through the
cache.  Returns (new record, new `sectors` cursor, new `sector_ofs`,
new `total_sectors_to_write`, cache trace). -/
def inode_disk_extend_dblock (d : InodeDisk) (sectors : List Nat)
    (sIdx sector_ofs total : Nat) :
    InodeDisk × Nat × Nat × Nat × List CacheOp :=
  if INODE_NUM_DBLOCKS ≤ sector_ofs then
    (d, sIdx, sector_ofs - INODE_NUM_DBLOCKS, total, [])
  else
    let n := min total (INODE_NUM_DBLOCKS - sector_ofs)
    let secs := (sectors.drop sIdx).take n
    ({ d with dblocks := writeSeq d.dblocks sector_ofs secs },
     sIdx + n, 0, total - n, secs.map CacheOp.writeZeros)

/-- Source `inode_disk_extend_indblock_children`: write up to `total` child
pointers into the indirect block `indblock` (one partial cache write of
the pointer words), then zero-fill each child.  Note the source clamps
the batch only at `INDBLOCK_NUM_CHILDREN`, not at
`INDBLOCK_NUM_CHILDREN - sector_ofs`. -/
def inode_disk_extend_indblock_children (indblock : Nat) (sectors : List Nat)
    (sIdx sector_ofs total : Nat) :
    Nat × Nat × Nat × List CacheOp :=
  if INDBLOCK_NUM_CHILDREN ≤ sector_ofs then
    (sIdx, sector_ofs - INDBLOCK_NUM_CHILDREN, total, [])
  else
    let n := min total INDBLOCK_NUM_CHILDREN
    let secs := (sectors.drop sIdx).take n
    (sIdx + n, 0, total - n,
     CacheOp.writeWords indblock (sector_ofs * 4) (n * 4) secs
       :: secs.map CacheOp.writeZeros)

/-- The `while (direct_children_left > 0)` loop of
`inode_disk_extend_doubly_indblock_children`: each round consumes one
child indirect block from `indirect_sectors` (cursor `iIdx`) and fills
it.  Returns (children collected into `direct_children_sectors`,
`sectors` cursor, `indirect_sectors` cursor, `sector_ofs`, `total`,
cache trace). -/
def doublyLoop (sectors indirect : List Nat) :
    Nat → Nat → Nat → Nat → Nat → List Nat × Nat × Nat × Nat × Nat × List CacheOp
  | 0, iIdx, sIdx, sector_ofs, total => ([], sIdx, iIdx, sector_ofs, total, [])
  | left + 1, iIdx, sIdx, sector_ofs, total =>
    let child := indirect.getD iIdx 0
    let r := inode_disk_extend_indblock_children child sectors sIdx sector_ofs total
    let rest := doublyLoop sectors indirect left (iIdx + 1) r.1 r.2.1 r.2.2.1
    (child :: rest.1, rest.2.1, rest.2.2.1, rest.2.2.2.1, rest.2.2.2.2.1,
     r.2.2.2 ++ rest.2.2.2.2.2)

/-- Source `inode_disk_extend_doubly_indblock_children`.  Note the final
partial cache write of the collected child pointers passes
`first_indblock` itself (not `first_indblock * 4`) as the byte offset,
exactly as the source does. -/
def inode_disk_extend_doubly_indblock_children (doubly_indblock : Nat)
    (sectors indirect : List Nat) (sIdx iIdx sector_ofs total : Nat) :
    List CacheOp :=
  let num_direct_children :=
    (total + INDBLOCK_NUM_CHILDREN + 1 - 1) / (INDBLOCK_NUM_CHILDREN + 1)
  let first_indblock := sector_ofs / (INDBLOCK_NUM_CHILDREN + 1)
  let ofs1 := sector_ofs % (INDBLOCK_NUM_CHILDREN + 1)
  let ofs2 := if 0 < ofs1 then ofs1 - 1 else ofs1
  let r := doublyLoop sectors indirect num_direct_children iIdx sIdx ofs2 total
  r.2.2.2.2.2 ++
    [CacheOp.writeWords doubly_indblock first_indblock
      (num_direct_children * 4) r.1]

/-- Result of `inode_disk_extend`: success flag, the (possibly mutated)
heap copy of the inode record, the allocator state after the call, the
counts passed to `free_map_allocate`, and the cache trace. -/
structure ExtendRes where
  ok : Bool
  disk : InodeDisk
  fm : FreeMapEnv
  allocRequests : List Nat
  cacheOps : List CacheOp
  deriving Repr, DecidableEq

/-- Source `inode_disk_extend (inode_disk, new_length)`.  (`malloc` of the
scratch sector array is modelled as infallible.) -/
def inode_disk_extend (fm : FreeMapEnv) (d : InodeDisk) (new_length : Nat) :
    ExtendRes :=
  if new_length < d.length then ⟨false, d, fm, [], []⟩
  else
    let sectors_to_write := bytes_to_sectors new_length - bytes_to_sectors d.length
    let data_sectors_to_write :=
      bytes_to_data_sectors new_length - bytes_to_data_sectors d.length
    let sector_ofs := bytes_to_data_sectors d.length
    let d1 := { d with length := new_length }
    if sectors_to_write = 0 then ⟨true, d1, fm, [], []⟩
    else
      match free_map_allocate fm sectors_to_write with
      | (false, fm', _) => ⟨false, d1, fm', [sectors_to_write], []⟩
      | (true, fm', sectors) =>
        let iIdx0 := data_sectors_to_write
        let rD := inode_disk_extend_dblock d1 sectors 0 sector_ofs
          data_sectors_to_write
        let d2 := rD.1
        if rD.2.2.2.1 = 0 then ⟨true, d2, fm', [sectors_to_write], rD.2.2.2.2⟩
        else
          let step1 : InodeDisk × Nat :=
            if rD.2.2.1 = 0 then ({ d2 with indblock := sectors.getD iIdx0 0 }, iIdx0 + 1)
            else (d2, iIdx0)
          let d3 := step1.1
          let rI := inode_disk_extend_indblock_children d3.indblock sectors
            rD.2.1 rD.2.2.1 rD.2.2.2.1
          if rI.2.2.1 = 0 then
            ⟨true, d3, fm', [sectors_to_write], rD.2.2.2.2 ++ rI.2.2.2⟩
          else
            let step2 : InodeDisk × Nat :=
              if rI.2.1 = 0 then
                ({ d3 with doubly_indblock := sectors.getD step1.2 0 }, step1.2 + 1)
              else (d3, step1.2)
            let d4 := step2.1
            let opsDD := inode_disk_extend_doubly_indblock_children
              d4.doubly_indblock sectors sectors rI.1 step2.2 rI.2.1 rI.2.2.1
            ⟨true, d4, fm', [sectors_to_write], rD.2.2.2.2 ++ rI.2.2.2 ++ opsDD⟩

/-- Source `inode_create (sector, length, is_dir)`: zero the record
(`calloc`, modelled infallible), extend it to `length`, and write it to
`sector` through the cache only when the extension succeeded.  Returns
(return value, allocator state, cache trace). -/
def inode_create (fm : FreeMapEnv) (sector length : Nat) (is_dir : Bool) :
    Bool × FreeMapEnv × List CacheOp :=
  let d0 : InodeDisk := ⟨0, is_dir, List.replicate INODE_NUM_DBLOCKS 0, 0, 0, INODE_MAGIC⟩
  let r := inode_disk_extend fm d0 length
  if r.ok then (true, r.fm, r.cacheOps ++ [CacheOp.writeInode sector r.disk])
  else (true, r.fm, r.cacheOps)

/-! ## Teardown (`inode_disk_free`, removed branch of `inode_close`)

`inode_disk_free_sector (sector, &sectors_left)` releases one sector and
decrements the counter; the embeddings below return the ordered list of
sectors passed to `free_map_release`, tracking `sectors_left` with the
source's `unsigned` wrap-around made explicit. -/

/-- The `while (sectors_left > 0)` loop over the doubly-indirect block's
children.  The source never increments its loop index `i`, which is
threaded here unchanged, exactly as in the code.  `fuel` bounds the
iteration count; each round consumes at least one remaining sector, so
`fuel := sectors_left` at entry is exact. -/
def inode_disk_free_doubly_loop (fetch : IndexFetch) (doubly_indblock : Nat) :
    Nat → Nat → Nat → List Nat
  | 0, _, _ => []
  | fuel + 1, i, sectors_left =>
    if sectors_left = 0 then []
    else
      let child := fetch doubly_indblock i
      let sl1 := sectors_left - 1
      let dblocks_to_free :=
        if sl1 < INDBLOCK_NUM_CHILDREN then sl1 else INDBLOCK_NUM_CHILDREN
      child :: (List.range dblocks_to_free).map (fetch child)
        ++ inode_disk_free_doubly_loop fetch doubly_indblock fuel i
             (sl1 - dblocks_to_free)

/-- Source `inode_disk_free (inode_disk)`: the ordered list of sectors the
teardown hands to `free_map_release`.  `(int) sectors_left <= 0` on a
32-bit `unsigned` holds iff the value is `0` or at least `2^31`; the
later `sectors_left <= 0` (still `unsigned`) holds iff it is `0`. -/
def inode_disk_free (d : InodeDisk) (fetch : IndexFetch) : List Nat :=
  let sl0 := bytes_to_sectors d.length
  let dblocks_to_free := if sl0 < DBLOCK_END_BOUND then sl0 else DBLOCK_END_BOUND
  let freedD := (List.range dblocks_to_free).map fun i => d.dblocks.getD i 0
  let sl1 := sl0 - dblocks_to_free
  let sl2 := (sl1 + U32 - DBLOCK_END_BOUND) % U32
  if sl2 = 0 ∨ 2 ^ 31 ≤ sl2 then freedD
  else
    let sl3 := sl2 - 1
    let indblocks_to_free := if sl3 < INDBLOCK_END_BOUND then sl3 else INDBLOCK_END_BOUND
    let freedI := (List.range indblocks_to_free).map (fetch d.indblock)
    let sl4 := sl3 - indblocks_to_free
    let sl5 := (sl4 + U32 - INDBLOCK_END_BOUND) % U32
    if sl5 = 0 then freedD ++ d.indblock :: freedI
    else
      let sl6 := sl5 - 1
      freedD ++ d.indblock :: freedI ++ d.doubly_indblock ::
        inode_disk_free_doubly_loop fetch d.doubly_indblock sl6 0 sl6

/-- The removed-inode branch of `inode_close`: it first releases the
inode's own sector, then reads the record and calls `inode_disk_free`.
Returns the full ordered release list. -/
def inode_close_removed_releases (sector : Nat) (d : InodeDisk)
    (fetch : IndexFetch) : List Nat :=
  sector :: inode_disk_free d fetch

/-! ## Buffer cache (`filesys/cache.c`) -/

/-- One buffer-cache slot (`struct cache_entry`), minus the 512 data
bytes, which no settled claim inspects. -/
structure CacheEntry where
  sector : Nat
  free : Bool
  dirty : Bool
  last_accessed_tick : Int
  deriving Repr, DecidableEq

/-- The slot array after `cache_init`: the C global array is
zero-initialized (`sector = 0`, `dirty = false`, tick `0`), and
`cache_init` sets only `free = true` on every slot. -/
def cache_init_entries : List CacheEntry :=
  List.replicate CACHE_NUM_SECTORS ⟨0, true, false, 0⟩

/-- A block-device transfer (`block_read` / `block_write`). -/
inductive DevOp where
  | read (sector : Nat)
  | write (sector : Nat)
  deriving Repr, DecidableEq

/-- Source `get_cache_entry_to_evict`: index of the occupied slot with the
least `last_accessed_tick`; the strict `<` keeps the lowest index on
ties.  (The fold's `i = 0` step compares the start slot with itself and
changes nothing, matching the source's loop from `i = 1`.) -/
def get_cache_entry_to_evict (cs : List CacheEntry) : Nat :=
  (List.range cs.length).foldl
    (fun best i =>
      if (cs.getD i ⟨0, true, false, 0⟩).last_accessed_tick <
          (cs.getD best ⟨0, true, false, 0⟩).last_accessed_tick then i else best)
    0

/-- Source `get_cache_entry (sector)`: returns (slot index, new slot array,
device transfers performed).  The single scan of the source returns the
first slot whose `sector` field matches — without consulting `free` —
and otherwise remembers the first free slot; two searches over the full
array are equivalent because in the second case no match exists at all. -/
def get_cache_entry (cs : List CacheEntry) (sector : Nat) :
    Nat × List CacheEntry × List DevOp :=
  match cs.findIdx? (fun e => e.sector == sector) with
  | some i => (i, cs, [])
  | none =>
    match cs.findIdx? (fun e => e.free) with
    | some i =>
      let e := cs.getD i ⟨0, true, false, 0⟩
      (i, cs.set i { e with sector := sector, free := false, dirty := false },
       [DevOp.read sector])
    | none =>
      let i := get_cache_entry_to_evict cs
      let e := cs.getD i ⟨0, true, false, 0⟩
      (i, cs.set i { e with sector := sector, dirty := false },
       (if e.dirty then [DevOp.write e.sector] else []) ++ [DevOp.read sector])

/-! ## Open-inode list (`inode_open`, `inode_reopen`, `inode_close`)

The process-wide `open_inodes` list is a `List Inode`, front first.
`inode_reopen` and `inode_close` take a pointer to a handle in the C
code; here they address the first (under the claimed invariant: the
only) handle with the given sector. -/

/-- Does the open-inode list hold a handle for `s`? -/
def containsSector (st : List Inode) (s : Nat) : Bool :=
  st.any fun e => e.sector == s

/-- Source `inode_reopen` applied to the first handle with sector `s`:
increments its `open_cnt`. -/
def inode_reopen_first : List Inode → Nat → List Inode
  | [], _ => []
  | e :: t, s =>
    if e.sector == s then { e with open_cnt := e.open_cnt + 1 } :: t
    else e :: inode_reopen_first t s

/-- Source `inode_open (sector)`: scan the list; on a match, reopen the
existing handle; otherwise allocate a fresh handle (`open_cnt = 1`) and
push it on the front. -/
def inode_open (st : List Inode) (s : Nat) : List Inode :=
  if containsSector st s then inode_reopen_first st s
  else ⟨s, 1, false, 0⟩ :: st

/-- Source `inode_close` applied to the first handle with sector `s`:
decrement `open_cnt`; when it reaches `0`, unlink the handle from the
list (the removed-flag resource release does not touch the list). -/
def inode_close_first : List Inode → Nat → List Inode
  | [], _ => []
  | e :: t, s =>
    if e.sector == s then
      if e.open_cnt - 1 = 0 then t
      else { e with open_cnt := e.open_cnt - 1 } :: t
    else e :: inode_close_first t s

/-- One operation on the open-inode list. -/
inductive InodeOp where
  | openOp (s : Nat)
  | reopenOp (s : Nat)
  | closeOp (s : Nat)
  deriving Repr, DecidableEq

/-- Apply one operation. -/
def applyInodeOp (st : List Inode) : InodeOp → List Inode
  | .openOp s => inode_open st s
  | .reopenOp s => inode_reopen_first st s
  | .closeOp s => inode_close_first st s

/-- Run a sequence of operations from the state `inode_init` leaves
behind (the empty list). -/
def runInodeOps (ops : List InodeOp) : List Inode :=
  ops.foldl applyInodeOp []

/-! ## Write path (`inode_write_at`) -/

/-- A data write through `cache_write_partial` whose payload is the
caller's (opaque) buffer bytes. -/
inductive DataOp where
  | cacheOp (op : CacheOp)
  | writeData (sector : Nat) (byteOfs byteLen : Nat)
  deriving Repr, DecidableEq

/-- The `while (size > 0)` loop of `inode_write_at`.  `d` is the heap
copy of the record (used by `byte_to_sector`), `lenNow` the length the
cache reports for the inode record (`inode_length` re-reads it every
iteration).  Each non-breaking iteration writes `chunk_size >= 1`
bytes, so `fuel := size` at entry is enough; the `off_t` arithmetic on
`inode_left` / `min_left` / `chunk_size` is over `Int` as in the signed
C code. -/
def inodeWriteLoop (d : InodeDisk) (fetch : IndexFetch) (lenNow : Nat) :
    Nat → Nat → Nat → Nat → Nat × List DataOp
  | 0, _, _, bytes_written => (bytes_written, [])
  | fuel + 1, size, offset, bytes_written =>
    if size = 0 then (bytes_written, [])
    else
      let sector_idx := byte_to_sector d fetch offset
      let sector_ofs := offset % BLOCK_SECTOR_SIZE
      let inode_left : Int := (lenNow : Int) - (offset : Int)
      let sector_left : Int := (BLOCK_SECTOR_SIZE : Int) - (sector_ofs : Int)
      let min_left := if inode_left < sector_left then inode_left else sector_left
      let chunk_size : Int := if (size : Int) < min_left then (size : Int) else min_left
      if chunk_size ≤ 0 then (bytes_written, [])
      else
        let c := chunk_size.toNat
        let rest := inodeWriteLoop d fetch lenNow fuel (size - c) (offset + c)
          (bytes_written + c)
        (rest.1, DataOp.writeData sector_idx sector_ofs c :: rest.2)

/-- Source `inode_write_at (inode, buffer, size, offset)`.  `d` is the on-disk
record currently cached at `inode->sector` (read by `inode_get_data`),
`fetch` the cache image for index blocks.  Returns (bytes written,
allocator state, trace of cache operations). -/
def inode_write_at (fm : FreeMapEnv) (ino : Inode) (d : InodeDisk)
    (fetch : IndexFetch) (size offset : Nat) :
    Nat × FreeMapEnv × List DataOp :=
  if ino.deny_write_cnt ≠ 0 then (0, fm, [])
  else
    let r := inode_disk_extend fm d (offset + size)
    let extOps :=
      if r.ok then r.cacheOps ++ [CacheOp.writeInode ino.sector r.disk]
      else r.cacheOps
    let dCache := if r.ok then r.disk else d
    let loopRes := inodeWriteLoop r.disk fetch dCache.length size size offset 0
    (loopRes.1, r.fm,
     DataOp.cacheOp (CacheOp.read ino.sector)
       :: extOps.map DataOp.cacheOp ++ loopRes.2)

/-! ## Derived and specification-side definitions used by the theorems -/

/-- Structural maximum file size in bytes: one past the last byte offset
the index structure can address (12 direct + 128 indirect + 128 * 128
doubly-indirect data sectors, 512 bytes each). -/
def FILE_MAX_BYTES : Nat :=
  (INODE_NUM_DBLOCKS + INDBLOCK_NUM_CHILDREN + DOUBLY_INDBLOCK_NUM_GRANDCHILDREN)
    * BLOCK_SECTOR_SIZE

/-- The specification's `sectors_needed` formula for an extension from
`old_length` to `new_length`, written from the spec's words over `Int`:
`data_sectors(new_length) + index_sectors(new_length) −
data_sectors(old_length) − index_sectors(old_length)`. -/
def sectors_needed_spec (old_length new_length : Nat) : Int :=
  (bytes_to_data_sectors new_length : Int)
    + (bytes_to_indirect_sectors new_length : Int)
    - (bytes_to_data_sectors old_length : Int)
    - (bytes_to_indirect_sectors old_length : Int)

/-- Sector addresses of the handles on the open-inode list, in order. -/
def openSectors (st : List Inode) : List Nat := st.map fun e => e.sector

/-- Total reference count held by handles for sector `s` (under the
uniqueness invariant, the reference count of the one handle for `s`). -/
def sumOpenCnt (st : List Inode) (s : Nat) : Int :=
  ((st.filter fun e => e.sector == s).map fun e => e.open_cnt).sum

/-! ## Theorems settling the claims -/

/-- Claim C1: the claim states that a failed `free_map_allocate` leaves
the in-memory bitmap identical to its state before the call.  The code
violates this: on a bitmap `[1,1,0,0]` (the two reserved sectors marked)
a request for 3 sectors finds only sectors 2 and 3, and its rollback
loop resets bit *indices* `0` and `1` — the reserved bits — instead of
the sectors recorded in `sectorp`, leaving the bitmap `[0,0,1,1]`. -/
theorem free_map_allocate_failed_rollback_corrupts :
    free_map_allocate ⟨[true, true, false, false], true, true⟩ 3
      = (false, ⟨[false, false, true, true], true, true⟩, [2, 3])
    ∧ ([false, false, true, true] : List Bool) ≠ [true, true, false, false] := by
  decide

/-- Claim C2: the claim states that creation reports failure when the
allocator cannot supply the needed sectors, and that a failed extension
leaves the length field unchanged.  The code violates both: with every
sector of a 2-sector device already allocated, `inode_create` of a
512-byte inode returns `true` although `inode_disk_extend` failed, and
the failed `inode_disk_extend` has already set the record's `length`
from 0 to 512 before attempting the allocation. -/
theorem inode_create_reports_success_on_alloc_failure :
    (inode_create ⟨[true, true], true, true⟩ 7 512 false).1 = true
    ∧ (inode_disk_extend ⟨[true, true], true, true⟩
        ⟨0, false, List.replicate 12 0, 0, 0, INODE_MAGIC⟩ 512).ok = false
    ∧ (inode_disk_extend ⟨[true, true], true, true⟩
        ⟨0, false, List.replicate 12 0, 0, 0, INODE_MAGIC⟩ 512).disk.length = 512 := by
  decide

/-- Claim C3: the claim states that teardown releases exactly
`bytes_to_sectors (length)` sectors plus the inode's own sector.  The
code violates this: for an inode of length `13 * 512` (13 data sectors
plus one indirect block, so 15 releases are required including the
inode's own sector), the removed-inode branch of `inode_close` releases
only the inode sector and the 12 direct pointers — `sectors_left` is
decremented once per freed sector *and* then reduced by
`DBLOCK_END_BOUND` again, so the indirect block 99 and its child
`fetch 99 0` are leaked. -/
theorem inode_disk_free_leaks_indirect_sectors :
    inode_close_removed_releases 7
        ⟨13 * 512, false, [10, 11, 12, 13, 14, 15, 16, 17, 18, 19, 20, 21], 99, 98,
          INODE_MAGIC⟩
        (fun s i => 1000 + 128 * s + i)
      = [7, 10, 11, 12, 13, 14, 15, 16, 17, 18, 19, 20, 21]
    ∧ bytes_to_sectors (13 * 512) + 1 = 15 := by
  decide

/-- Claim C4: the claim states that `get_cache_entry` returns an
existing slot only if that slot is occupied and its sector matches, and
otherwise binds an unassigned slot and loads the sector from the
device.  The code violates this: right after `cache_init` every slot is
free with a zero-initialized `sector` field, and a request for sector 0
returns slot 0 as a "match" — still marked free, with no device read
and no binding. -/
theorem get_cache_entry_returns_unbound_free_slot :
    get_cache_entry cache_init_entries 0 = (0, cache_init_entries, [])
    ∧ (cache_init_entries.getD 0 ⟨0, true, false, 0⟩).free = true := by
  decide

/-- Claim C7 counterexample: the claim states that `inode_disk_extend`
with `new_length ≤` the current length returns the "unchanged" success
result; but for an inode of length 512 and `new_length = 0` the code
returns `false` (an ordinary recoverable failure, not a success and not
a fatal assertion). -/
theorem inode_disk_extend_shrink_returns_failure :
    (inode_disk_extend ⟨[], true, true⟩
        ⟨512, false, List.replicate 12 0, 0, 0, INODE_MAGIC⟩ 0).ok = false := by
  decide

/-- Claim C10: if the inode handle's write-denial counter is positive,
`inode_write_at` returns 0 bytes written, leaves the free-space
allocator untouched, and performs no cache operation at all (so the
inode is not extended and no sector is modified). -/
theorem inode_write_at_denied_is_noop (fm : FreeMapEnv) (ino : Inode)
    (d : InodeDisk) (fetch : IndexFetch) (size offset : Nat)
    (h : 0 < ino.deny_write_cnt) :
    inode_write_at fm ino d fetch size offset = (0, fm, []) := by
  unfold inode_write_at
  rw [if_pos]
  omega

/-- Claim C10 witness: a concrete denied write returns 0 and changes
nothing. -/
theorem inode_write_at_denied_is_noop_witness :
    inode_write_at ⟨[false, false], true, true⟩ ⟨5, 1, false, 3⟩
        ⟨0, false, List.replicate 12 0, 0, 0, INODE_MAGIC⟩ (fun _ _ => 0) 100 0
      = (0, ⟨[false, false], true, true⟩, []) :=
  inode_write_at_denied_is_noop ⟨[false, false], true, true⟩ ⟨5, 1, false, 3⟩
    ⟨0, false, List.replicate 12 0, 0, 0, INODE_MAGIC⟩ (fun _ _ => 0) 100 0
    (by norm_num)

/-- Monotonicity of the data-sector count in the byte length. -/
theorem bytes_to_data_sectors_mono {m n : Nat} (h : m ≤ n) :
    bytes_to_data_sectors m ≤ bytes_to_data_sectors n := by
  unfold bytes_to_data_sectors
  exact Nat.div_le_div_right (by omega)

/-- Monotonicity of the index-sector count in the byte length. -/
theorem bytes_to_indirect_sectors_mono {m n : Nat} (h : m ≤ n) :
    bytes_to_indirect_sectors m ≤ bytes_to_indirect_sectors n := by
  have hds : bytes_to_data_sectors m ≤ bytes_to_data_sectors n :=
    bytes_to_data_sectors_mono h
  simp only [bytes_to_indirect_sectors]
  by_cases h1 : bytes_to_data_sectors m ≤ INODE_NUM_DBLOCKS
  · rw [if_pos h1]
    exact Nat.zero_le _
  · rw [if_neg h1,
      if_neg (show ¬ bytes_to_data_sectors n ≤ INODE_NUM_DBLOCKS by omega)]
    by_cases h2 : bytes_to_data_sectors m - INODE_NUM_DBLOCKS ≤ INDBLOCK_NUM_CHILDREN
    · rw [if_pos h2]
      split
      · exact le_refl 1
      · exact le_trans one_le_two (Nat.le_add_right 2 _)
    · rw [if_neg h2,
        if_neg (show ¬ bytes_to_data_sectors n - INODE_NUM_DBLOCKS ≤ INDBLOCK_NUM_CHILDREN
          by omega)]
      have hd : (bytes_to_data_sectors m - INODE_NUM_DBLOCKS - INDBLOCK_NUM_CHILDREN
            + INDBLOCK_NUM_CHILDREN - 1) / INDBLOCK_NUM_CHILDREN
          ≤ (bytes_to_data_sectors n - INODE_NUM_DBLOCKS - INDBLOCK_NUM_CHILDREN
            + INDBLOCK_NUM_CHILDREN - 1) / INDBLOCK_NUM_CHILDREN :=
        Nat.div_le_div_right (by omega)
      omega

/-- Monotonicity of the total sector count in the byte length. -/
theorem bytes_to_sectors_mono {m n : Nat} (h : m ≤ n) :
    bytes_to_sectors m ≤ bytes_to_sectors n :=
  Nat.add_le_add (bytes_to_data_sectors_mono h) (bytes_to_indirect_sectors_mono h)

/-- For a growing (or equal-length) extension, the allocator is asked
for exactly `bytes_to_sectors (new) - bytes_to_sectors (old)` sectors,
in one call, and for none when that difference is zero. -/
theorem inode_disk_extend_allocRequests (fm : FreeMapEnv) (d : InodeDisk)
    (new_length : Nat) (hmono : d.length ≤ new_length) :
    (inode_disk_extend fm d new_length).allocRequests
      = if bytes_to_sectors new_length - bytes_to_sectors d.length = 0 then []
        else [bytes_to_sectors new_length - bytes_to_sectors d.length] := by
  simp only [inode_disk_extend]
  rw [if_neg (Nat.not_lt.mpr hmono)]
  by_cases hz : bytes_to_sectors new_length - bytes_to_sectors d.length = 0
  · rw [if_pos hz, if_pos hz]
  · rw [if_neg hz, if_neg hz]
    rcases hfa : free_map_allocate fm
        (bytes_to_sectors new_length - bytes_to_sectors d.length) with ⟨b, fm', secs⟩
    cases b <;> simp [apply_ite ExtendRes.allocRequests]

/-- Claim C5: a successful extension from `d.length` to `new_length`
requests from the free-space allocator, in a single `free_map_allocate`
call, exactly `data_sectors (new) + index_sectors (new) −
data_sectors (old) − index_sectors (old)` sectors; in particular, an
extension whose new length needs no additional sectors performs no
allocator call, no cache write, and only updates `length`. -/
theorem inode_disk_extend_allocation_count (fm : FreeMapEnv) (d : InodeDisk)
    (new_length : Nat) (hmono : d.length ≤ new_length)
    (hok : (inode_disk_extend fm d new_length).ok = true) :
    ((inode_disk_extend fm d new_length).allocRequests
      = if sectors_needed_spec d.length new_length = 0 then []
        else [(sectors_needed_spec d.length new_length).toNat])
    ∧ (sectors_needed_spec d.length new_length = 0 →
        inode_disk_extend fm d new_length
          = ⟨true, { d with length := new_length }, fm, [], []⟩) := by
  have hb : bytes_to_sectors d.length ≤ bytes_to_sectors new_length :=
    bytes_to_sectors_mono hmono
  have hspec : sectors_needed_spec d.length new_length
      = ((bytes_to_sectors new_length - bytes_to_sectors d.length : Nat) : Int) := by
    unfold sectors_needed_spec
    unfold bytes_to_sectors at hb ⊢
    omega
  constructor
  · rw [inode_disk_extend_allocRequests fm d new_length hmono, hspec]
    by_cases hz : bytes_to_sectors new_length - bytes_to_sectors d.length = 0
    · simp [hz]
    · rw [if_neg hz, if_neg (by exact_mod_cast hz), Int.toNat_natCast]
  · intro h0
    rw [hspec] at h0
    have hz : bytes_to_sectors new_length - bytes_to_sectors d.length = 0 := by
      exact_mod_cast h0
    simp only [inode_disk_extend]
    rw [if_neg (Nat.not_lt.mpr hmono), if_pos hz]

/-- Claim C5 witness: extending a fresh inode to 10000 bytes on a
40-sector empty device issues one allocator request of exactly 21
sectors (20 data + 1 indirect block). -/
theorem inode_disk_extend_allocation_count_witness :
    ((inode_disk_extend ⟨List.replicate 40 false, true, true⟩
        ⟨0, false, List.replicate 12 0, 0, 0, INODE_MAGIC⟩ 10000).allocRequests
      = if sectors_needed_spec 0 10000 = 0 then []
        else [(sectors_needed_spec 0 10000).toNat])
    ∧ (sectors_needed_spec 0 10000 = 0 →
        inode_disk_extend ⟨List.replicate 40 false, true, true⟩
            ⟨0, false, List.replicate 12 0, 0, 0, INODE_MAGIC⟩ 10000
          = ⟨true, ⟨10000, false, List.replicate 12 0, 0, 0, INODE_MAGIC⟩,
              ⟨List.replicate 40 false, true, true⟩, [], []⟩) :=
  inode_disk_extend_allocation_count ⟨List.replicate 40 false, true, true⟩
    ⟨0, false, List.replicate 12 0, 0, 0, INODE_MAGIC⟩ 10000
    (by decide) (by decide)

/-- Claim C7 (amended): `inode_disk_extend` with
`new_length = d.length` is a no-op returning success, and with
`new_length < d.length` (an attempted shrink) it returns the ordinary
failure result `false` — not a fatal assertion — and in both cases the
record, the allocator, and the cache are left untouched. -/
theorem inode_disk_extend_le_length_noop (fm : FreeMapEnv) (d : InodeDisk)
    (new_length : Nat) (h : new_length ≤ d.length) :
    (inode_disk_extend fm d new_length).disk = d
    ∧ (inode_disk_extend fm d new_length).fm = fm
    ∧ (inode_disk_extend fm d new_length).allocRequests = []
    ∧ (inode_disk_extend fm d new_length).cacheOps = []
    ∧ ((inode_disk_extend fm d new_length).ok = true ↔ new_length = d.length) := by
  obtain ⟨len, dir, dbs, ib, dib, mg⟩ := d
  simp only [InodeDisk.length] at h ⊢
  rcases eq_or_lt_of_le h with heq | hlt
  · subst heq
    have hr : inode_disk_extend fm ⟨new_length, dir, dbs, ib, dib, mg⟩ new_length
        = ⟨true, ⟨new_length, dir, dbs, ib, dib, mg⟩, fm, [], []⟩ := by
      simp [inode_disk_extend]
    rw [hr]
    simp
  · have hr : inode_disk_extend fm ⟨len, dir, dbs, ib, dib, mg⟩ new_length
        = ⟨false, ⟨len, dir, dbs, ib, dib, mg⟩, fm, [], []⟩ := by
      simp [inode_disk_extend, hlt]
    rw [hr]
    simp
    omega

/-- Claim C7 witness: an equal-length "extension" of a 512-byte inode
succeeds and changes nothing. -/
theorem inode_disk_extend_le_length_noop_witness :
    (inode_disk_extend ⟨[], true, true⟩
        ⟨512, false, List.replicate 12 0, 0, 0, INODE_MAGIC⟩ 512).disk
      = ⟨512, false, List.replicate 12 0, 0, 0, INODE_MAGIC⟩
    ∧ (inode_disk_extend ⟨[], true, true⟩
        ⟨512, false, List.replicate 12 0, 0, 0, INODE_MAGIC⟩ 512).fm
      = ⟨[], true, true⟩
    ∧ (inode_disk_extend ⟨[], true, true⟩
        ⟨512, false, List.replicate 12 0, 0, 0, INODE_MAGIC⟩ 512).allocRequests = []
    ∧ (inode_disk_extend ⟨[], true, true⟩
        ⟨512, false, List.replicate 12 0, 0, 0, INODE_MAGIC⟩ 512).cacheOps = []
    ∧ ((inode_disk_extend ⟨[], true, true⟩
        ⟨512, false, List.replicate 12 0, 0, 0, INODE_MAGIC⟩ 512).ok = true ↔ 512 = 512) :=
  inode_disk_extend_le_length_noop ⟨[], true, true⟩
    ⟨512, false, List.replicate 12 0, 0, 0, INODE_MAGIC⟩ 512 (by decide)

/-- Claim C6: with `s = pos / 512`, `byte_to_sector` returns the `s`-th
direct pointer when `s < 12`; the `r`-th entry of the indirect block
fetched through the cache when `s = 12 + r`, `r < 128`; entry
`r' mod 128` of the indirect block found at entry `r' / 128` of the
doubly-indirect block when `s = 140 + r'`, `r' < 128 * 128`; and the
invalid marker `(block_sector_t) -1` exactly when `pos` is past the
structural maximum file size (on a well-formed index whose pointers are
genuine sector numbers, never the marker). -/
theorem byte_to_sector_translation (d : InodeDisk) (fetch : IndexFetch) (pos : Nat)
    (hd : ∀ i, i < INODE_NUM_DBLOCKS → d.dblocks.getD i 0 ≠ INVALID_SECTOR)
    (hf : ∀ s i, fetch s i ≠ INVALID_SECTOR) :
    (pos / BLOCK_SECTOR_SIZE < INODE_NUM_DBLOCKS →
      byte_to_sector d fetch pos = d.dblocks.getD (pos / BLOCK_SECTOR_SIZE) 0)
    ∧ (∀ r, pos / BLOCK_SECTOR_SIZE = INODE_NUM_DBLOCKS + r →
        r < INDBLOCK_NUM_CHILDREN →
        byte_to_sector d fetch pos = fetch d.indblock r)
    ∧ (∀ r, pos / BLOCK_SECTOR_SIZE = INODE_NUM_DBLOCKS + INDBLOCK_NUM_CHILDREN + r →
        r < DOUBLY_INDBLOCK_NUM_GRANDCHILDREN →
        byte_to_sector d fetch pos
          = fetch (fetch d.doubly_indblock (r / INDBLOCK_NUM_CHILDREN))
              (r % INDBLOCK_NUM_CHILDREN))
    ∧ (byte_to_sector d fetch pos = INVALID_SECTOR ↔ FILE_MAX_BYTES ≤ pos) := by
  have e1 : INODE_NUM_DBLOCKS = 12 := rfl
  have e2 : INDBLOCK_NUM_CHILDREN = 128 := rfl
  have e3 : DOUBLY_INDBLOCK_NUM_GRANDCHILDREN = 16384 := rfl
  have e4 : BLOCK_SECTOR_SIZE = 512 := rfl
  have e5 : FILE_MAX_BYTES = 8460288 := rfl
  simp only [byte_to_sector, e1, e2, e3, e4, e5] at hd ⊢
  refine ⟨?_, ?_, ?_, ?_⟩
  · intro hlt
    rw [if_pos hlt]
  · intro r hr hrlt
    rw [if_neg (by omega), if_pos (show pos / 512 - 12 < 128 by omega)]
    have : pos / 512 - 12 = r := by omega
    rw [this]
  · intro r hr hrlt
    rw [if_neg (by omega), if_neg (show ¬ pos / 512 - 12 < 128 by omega),
      if_pos (show pos / 512 - 12 - 128 < 16384 by omega)]
    have : pos / 512 - 12 - 128 = r := by omega
    rw [this]
  · constructor
    · intro hinv
      by_contra hlt
      push_neg at hlt
      have hs : pos / 512 < 16524 := by omega
      by_cases c1 : pos / 512 < 12
      · rw [if_pos c1] at hinv
        exact hd _ c1 hinv
      · rw [if_neg c1] at hinv
        by_cases c2 : pos / 512 - 12 < 128
        · rw [if_pos c2] at hinv
          exact hf _ _ hinv
        · rw [if_neg c2, if_pos (by omega)] at hinv
          exact hf _ _ hinv
    · intro hge
      have hs : 16524 ≤ pos / 512 := by omega
      rw [if_neg (by omega), if_neg (show ¬ pos / 512 - 12 < 128 by omega),
        if_neg (show ¬ pos / 512 - 12 - 128 < 16384 by omega)]

/-- Claim C6 witness: translation of offset 700 (sector 1 of the file)
on a concrete well-formed inode returns direct pointer 4. -/
theorem byte_to_sector_translation_witness :
    (700 / BLOCK_SECTOR_SIZE < INODE_NUM_DBLOCKS →
      byte_to_sector ⟨10000, false, [3, 4, 5, 6, 7, 8, 9, 10, 11, 12, 13, 14], 77, 88,
          INODE_MAGIC⟩ (fun _ _ => 1) 700
        = ([3, 4, 5, 6, 7, 8, 9, 10, 11, 12, 13, 14] : List Nat).getD
            (700 / BLOCK_SECTOR_SIZE) 0)
    ∧ (∀ r, 700 / BLOCK_SECTOR_SIZE = INODE_NUM_DBLOCKS + r →
        r < INDBLOCK_NUM_CHILDREN →
        byte_to_sector ⟨10000, false, [3, 4, 5, 6, 7, 8, 9, 10, 11, 12, 13, 14], 77, 88,
            INODE_MAGIC⟩ (fun _ _ => 1) 700 = (fun _ _ => 1 : IndexFetch) 77 r)
    ∧ (∀ r, 700 / BLOCK_SECTOR_SIZE = INODE_NUM_DBLOCKS + INDBLOCK_NUM_CHILDREN + r →
        r < DOUBLY_INDBLOCK_NUM_GRANDCHILDREN →
        byte_to_sector ⟨10000, false, [3, 4, 5, 6, 7, 8, 9, 10, 11, 12, 13, 14], 77, 88,
            INODE_MAGIC⟩ (fun _ _ => 1) 700
          = (fun _ _ => 1 : IndexFetch)
              ((fun _ _ => 1 : IndexFetch) 88 (r / INDBLOCK_NUM_CHILDREN))
              (r % INDBLOCK_NUM_CHILDREN))
    ∧ (byte_to_sector ⟨10000, false, [3, 4, 5, 6, 7, 8, 9, 10, 11, 12, 13, 14], 77, 88,
          INODE_MAGIC⟩ (fun _ _ => 1) 700 = INVALID_SECTOR ↔ FILE_MAX_BYTES ≤ 700) :=
  byte_to_sector_translation
    ⟨10000, false, [3, 4, 5, 6, 7, 8, 9, 10, 11, 12, 13, 14], 77, 88, INODE_MAGIC⟩
    (fun _ _ => 1) 700 (by decide) (fun _ _ => by norm_num [INVALID_SECTOR])

/-- Reading one bit after a single-bit write. -/
theorem bitmap_test_set (l : List Bool) (j v i) :
    bitmap_test (l.set j v) i = if j = i ∧ i < l.length then v else bitmap_test l i := by
  unfold bitmap_test
  rw [List.getD_eq_getD_get?, List.getD_eq_getD_get?]
  simp only [List.get?_eq_getElem?, List.getElem?_set]
  by_cases hj : j = i
  · subst hj
    by_cases hl : j < l.length
    · simp [hl]
    · have hnone : l[j]? = none := by
        rw [List.getElem?_eq_none_iff]
        omega
      simp [hl, hnone]
  · simp [hj]

/-- A range write does not change the bitmap's size. -/
theorem bitmap_set_multiple_length (bm : List Bool) (start cnt : Nat) (v : Bool) :
    (bitmap_set_multiple bm start cnt v).length = bm.length := by
  induction cnt with
  | zero => rfl
  | succ n ih =>
    unfold bitmap_set_multiple at ih ⊢
    rw [List.range_succ, List.foldl_append, List.foldl_cons, List.foldl_nil,
      List.length_set, ih]

/-- Pointwise description of a range write. -/
theorem bitmap_test_set_multiple (bm : List Bool) (start cnt : Nat) (v : Bool) (i : Nat) :
    bitmap_test (bitmap_set_multiple bm start cnt v) i
      = if start ≤ i ∧ i < start + cnt ∧ i < bm.length then v
        else bitmap_test bm i := by
  induction cnt with
  | zero =>
    rw [if_neg (by omega)]
    rfl
  | succ n ih =>
    have hstep : bitmap_set_multiple bm start (n + 1) v
        = (bitmap_set_multiple bm start n v).set (start + n) v := by
      unfold bitmap_set_multiple
      rw [List.range_succ, List.foldl_append, List.foldl_cons, List.foldl_nil]
    rw [hstep, bitmap_test_set, bitmap_set_multiple_length, ih]
    split_ifs <;> first | rfl | omega

/-- Claim C8: when every bit of `sector .. sector + cnt - 1` is marked
allocated, `free_map_release` does not hit its fatal assertion, clears
exactly those `cnt` bits (all others unchanged), and persists the new
bitmap to the backing file; when some bit in the range is already free,
the fatal assertion fires (modelled as `none`) instead of any
recoverable result. -/
theorem free_map_release_spec :
    (∀ (bits fileBits : List Bool) (sector cnt : Nat),
      (∀ k, k < cnt → bitmap_test bits (sector + k) = true) →
      free_map_release bits fileBits true sector cnt
          = some (bitmap_set_multiple bits sector cnt false,
              bitmap_set_multiple bits sector cnt false)
        ∧ ∀ i, bitmap_test (bitmap_set_multiple bits sector cnt false) i
            = if sector ≤ i ∧ i < sector + cnt then false else bitmap_test bits i)
    ∧ ∀ (bits fileBits : List Bool) (persistOk : Bool) (sector cnt k : Nat),
        k < cnt → bitmap_test bits (sector + k) = false →
        free_map_release bits fileBits persistOk sector cnt = none := by
  constructor
  · intro bits fileBits sector cnt h
    have hall : bitmap_all bits sector cnt = true := by
      unfold bitmap_all
      rw [List.all_eq_true]
      intro x hx
      exact h x (List.mem_range.mp hx)
    constructor
    · unfold free_map_release
      rw [if_pos hall]
      simp
    · intro i
      rw [bitmap_test_set_multiple]
      by_cases hw : sector ≤ i ∧ i < sector + cnt
      · by_cases hl : i < bits.length
        · rw [if_pos ⟨hw.1, hw.2, hl⟩, if_pos hw]
        · rw [if_neg (by tauto), if_pos hw]
          unfold bitmap_test
          rw [List.getD_eq_default]
          omega
      · rw [if_neg (by tauto), if_neg hw]
  · intro bits fileBits persistOk sector cnt k hk hfalse
    have hnall : ¬ bitmap_all bits sector cnt = true := by
      intro hall
      unfold bitmap_all at hall
      rw [List.all_eq_true] at hall
      have hx := hall k (List.mem_range.mpr hk)
      rw [hfalse] at hx
      exact Bool.false_ne_true hx
    unfold free_map_release
    rw [if_neg hnall]

/-- Claim C8 witness: releasing sectors 1-2 of a fully-allocated
3-sector bitmap succeeds and persists; releasing an already-free
sector 0 is the fatal case. -/
theorem free_map_release_spec_witness :
    (free_map_release [true, true, true] [false, false, false] true 1 2
        = some (bitmap_set_multiple [true, true, true] 1 2 false,
            bitmap_set_multiple [true, true, true] 1 2 false)
      ∧ ∀ i, bitmap_test (bitmap_set_multiple [true, true, true] 1 2 false) i
          = if 1 ≤ i ∧ i < 1 + 2 then false else bitmap_test [true, true, true] i)
    ∧ free_map_release [false, true] [] true 0 1 = none :=
  ⟨free_map_release_spec.1 [true, true, true] [false, false, false] 1 2 (by decide),
   free_map_release_spec.2 [false, true] [] true 0 1 0 (by decide) (by decide)⟩

/-- Reopening a handle does not change which sectors are on the list. -/
theorem openSectors_reopen_first (st : List Inode) (s : Nat) :
    openSectors (inode_reopen_first st s) = openSectors st := by
  induction st with
  | nil => rfl
  | cons e t ih =>
    unfold inode_reopen_first
    split
    · rfl
    · show openSectors (e :: inode_reopen_first t s) = openSectors (e :: t)
      simp only [openSectors, List.map_cons]
      rw [show List.map (fun e => e.sector) (inode_reopen_first t s)
          = openSectors (inode_reopen_first t s) from rfl, ih]
      rfl

/-- Closing can only remove handles, never add or reorder them. -/
theorem openSectors_close_first_sublist (st : List Inode) (s : Nat) :
    (openSectors (inode_close_first st s)).Sublist (openSectors st) := by
  induction st with
  | nil => exact List.Sublist.refl _
  | cons e t ih =>
    unfold inode_close_first
    split
    · split
      · exact List.sublist_cons_self _ _
      · exact List.Sublist.refl _
    · exact List.Sublist.cons₂ _ ih

/-- Absence from the list, in terms of the sector addresses. -/
theorem containsSector_eq_false_iff (st : List Inode) (s : Nat) :
    containsSector st s = false ↔ s ∉ openSectors st := by
  rw [← Bool.not_eq_true, containsSector, List.any_eq_true]
  constructor
  · intro h hmem
    rcases List.mem_map.mp hmem with ⟨e, he, hes⟩
    exact h ⟨e, he, by simpa using hes⟩
  · intro h hex
    rcases hex with ⟨e, he, hes⟩
    exact h (List.mem_map.mpr ⟨e, he, by simpa using hes⟩)

/-- Opening preserves distinctness of the listed sector addresses. -/
theorem openSectors_open_nodup (st : List Inode) (s : Nat)
    (h : (openSectors st).Nodup) : (openSectors (inode_open st s)).Nodup := by
  unfold inode_open
  split
  · rwa [openSectors_reopen_first]
  · rename_i hc
    have hs : s ∉ openSectors st := by
      rw [← containsSector_eq_false_iff]
      rwa [Bool.not_eq_true] at hc
    simp only [openSectors, List.map_cons]
    exact List.nodup_cons.mpr ⟨hs, h⟩

/-- Any operation sequence preserves distinctness of sector addresses. -/
theorem runInodeOps_nodup_aux (ops : List InodeOp) :
    ∀ st, (openSectors st).Nodup → (openSectors (ops.foldl applyInodeOp st)).Nodup := by
  induction ops with
  | nil =>
    intro st h
    exact h
  | cons op rest ih =>
    intro st h
    rw [List.foldl_cons]
    refine ih _ ?_
    cases op with
    | openOp s => exact openSectors_open_nodup st s h
    | reopenOp s =>
      simp only [applyInodeOp]
      rwa [openSectors_reopen_first]
    | closeOp s =>
      simp only [applyInodeOp]
      exact (openSectors_close_first_sublist st s).nodup h

/-- Reference-count total over a list whose head matches. -/
theorem sumOpenCnt_cons_pos (e : Inode) (t : List Inode) (s : Nat)
    (he : (e.sector == s) = true) :
    sumOpenCnt (e :: t) s = e.open_cnt + sumOpenCnt t s := by
  unfold sumOpenCnt
  rw [List.filter_cons, if_pos he, List.map_cons, List.sum_cons]

/-- Reference-count total over a list whose head does not match. -/
theorem sumOpenCnt_cons_neg (e : Inode) (t : List Inode) (s : Nat)
    (he : (e.sector == s) = false) :
    sumOpenCnt (e :: t) s = sumOpenCnt t s := by
  unfold sumOpenCnt
  rw [List.filter_cons, if_neg (by simp [he])]

/-- Reopening adds exactly one reference for the requested sector. -/
theorem sumOpenCnt_reopen_first (st : List Inode) (s : Nat)
    (h : containsSector st s = true) :
    sumOpenCnt (inode_reopen_first st s) s = sumOpenCnt st s + 1 := by
  induction st with
  | nil => simp [containsSector] at h
  | cons e t ih =>
    unfold inode_reopen_first
    by_cases hbeq : (e.sector == s) = true
    · rw [if_pos hbeq]
      rw [sumOpenCnt_cons_pos { e with open_cnt := e.open_cnt + 1 } t s hbeq,
        sumOpenCnt_cons_pos e t s hbeq]
      show e.open_cnt + 1 + sumOpenCnt t s = e.open_cnt + sumOpenCnt t s + 1
      omega
    · rw [if_neg hbeq]
      rw [Bool.not_eq_true] at hbeq
      rw [sumOpenCnt_cons_neg e (inode_reopen_first t s) s hbeq,
        sumOpenCnt_cons_neg e t s hbeq]
      apply ih
      rw [containsSector, List.any_cons, hbeq, Bool.false_or] at h
      exact h

/-- Closing the handle for sector `s` unlinks it precisely when its
reference count was 1 (so the decrement reaches zero). -/
theorem inode_close_first_removes_iff (st : List Inode) (s : Nat) (e : Inode)
    (hnd : (openSectors st).Nodup) (he : e ∈ st) (hes : e.sector = s) :
    (containsSector (inode_close_first st s) s = false ↔ e.open_cnt = 1) := by
  induction st with
  | nil => cases he
  | cons a t ih =>
    have hnd' : a.sector ∉ openSectors t ∧ (openSectors t).Nodup := by
      have := hnd
      simp only [openSectors, List.map_cons, List.nodup_cons] at this
      exact this
    unfold inode_close_first
    by_cases ha : a.sector = s
    · rw [if_pos (show (a.sector == s) = true by simpa using ha)]
      have hea : e = a := by
        rcases List.mem_cons.mp he with h1 | h2
        · exact h1
        · exfalso
          have hmem : s ∈ openSectors t := by
            simp only [openSectors, List.mem_map]
            exact ⟨e, h2, hes⟩
          rw [ha] at hnd'
          exact hnd'.1 hmem
      subst hea
      by_cases hc : e.open_cnt - 1 = 0
      · rw [if_pos hc]
        have hcf : containsSector t s = false := by
          rw [containsSector_eq_false_iff]
          rw [ha] at hnd'
          exact hnd'.1
        constructor
        · intro _
          omega
        · intro _
          exact hcf
      · rw [if_neg hc]
        have hct : containsSector ({ e with open_cnt := e.open_cnt - 1 } :: t) s = true := by
          rw [containsSector, List.any_cons]
          have : (Inode.sector { e with open_cnt := e.open_cnt - 1 } == s) = true := by
            simpa using hes
          rw [this, Bool.true_or]
        constructor
        · intro hfalse
          rw [hct] at hfalse
          cases hfalse
        · intro h1
          exfalso
          omega
    · rw [if_neg (show ¬ (a.sector == s) = true by simpa using ha)]
      have he' : e ∈ t := by
        rcases List.mem_cons.mp he with h1 | h2
        · exfalso
          rw [h1] at hes
          exact ha hes
        · exact h2
      have := ih hnd'.2 he'
      rw [containsSector, List.any_cons,
        show (a.sector == s) = false by simpa using ha, Bool.false_or]
      exact this
/-- Claim C9: starting from `inode_init`'s empty list, every sequence of
open/reopen/close operations keeps the open-inode list free of
duplicate sector addresses; `inode_open` on an already-open sector
returns the existing handle (same handles, reference count up by one)
instead of allocating a duplicate; and `inode_close` unlinks a handle
exactly when its reference count reaches zero. -/
theorem open_inode_list_unique :
    (∀ ops : List InodeOp, (openSectors (runInodeOps ops)).Nodup)
    ∧ (∀ (st : List Inode) (s : Nat), containsSector st s = true →
        openSectors (inode_open st s) = openSectors st
          ∧ sumOpenCnt (inode_open st s) s = sumOpenCnt st s + 1)
    ∧ ∀ (st : List Inode) (s : Nat) (e : Inode),
        (openSectors st).Nodup → e ∈ st → e.sector = s →
        (containsSector (inode_close_first st s) s = false ↔ e.open_cnt = 1) := by
  refine ⟨?_, ?_, ?_⟩
  · intro ops
    have h := runInodeOps_nodup_aux ops [] (by simp [openSectors])
    simpa [runInodeOps] using h
  · intro st s h
    unfold inode_open
    rw [if_pos h]
    exact ⟨openSectors_reopen_first st s, sumOpenCnt_reopen_first st s h⟩
  · intro st s e hnd he hes
    exact inode_close_first_removes_iff st s e hnd he hes

/-- Claim C9 witness: opening already-open sector 5 bumps its count
without a second handle, and closing the last reference to sector 7
unlinks it. -/
theorem open_inode_list_unique_witness :
    (openSectors (inode_open [⟨5, 2, false, 0⟩] 5) = openSectors [⟨5, 2, false, 0⟩]
      ∧ sumOpenCnt (inode_open [⟨5, 2, false, 0⟩] 5) 5
          = sumOpenCnt [⟨5, 2, false, 0⟩] 5 + 1)
    ∧ (containsSector (inode_close_first [⟨7, 1, false, 0⟩] 7) 7 = false
        ↔ (⟨7, 1, false, 0⟩ : Inode).open_cnt = 1) :=
  ⟨open_inode_list_unique.2.1 [⟨5, 2, false, 0⟩] 5 (by decide),
   open_inode_list_unique.2.2 [⟨7, 1, false, 0⟩] 7 ⟨7, 1, false, 0⟩ (by decide)
     (by decide) rfl⟩

end Pintos
